import Mathlib

/-!
Verification development for the caneandcamera static photography site.

The JavaScript sources under `assets/js/` are shallowly embedded below:
pure helpers become Lean functions on `String`/`List Char`, the DOM-driven
parts (batch rendering with an intersection observer, the lightbox
carousel) become explicit state types with step functions, and the
asynchronous manifest fetch becomes an `Except`-valued function of the
response.  JavaScript string primitives (`toLowerCase`, `trim`,
`split`, `parseInt`, `localeCompare` on ASCII datetimes) are implemented
on `List Char` so that every definition reduces in the kernel.
-/

/-! ## JavaScript-value helpers -/

/-- JS `a || b` on strings: the empty string is falsy. -/
def jsOr (a b : String) : String := if a = "" then b else a

/-- JS `x || ""` for a possibly-missing (`undefined`/`null`) string field. -/
def orEmpty (o : Option String) : String := o.getD ""

/-- JS truthiness of a possibly-missing string field. -/
def truthy (o : Option String) : Bool := orEmpty o ≠ ""

/-- JS `String.prototype.toLowerCase` (per code point, as on the ASCII
category keys the site uses). -/
def jsToLower (s : String) : String := String.mk (s.data.map Char.toLower)

/-- Trim leading and trailing whitespace from a character list
(JS `String.prototype.trim`). -/
def trimCh (cs : List Char) : List Char :=
  ((cs.dropWhile Char.isWhitespace).reverse.dropWhile Char.isWhitespace).reverse

/-- JS `String.prototype.trim`. -/
def jsTrim (s : String) : String := String.mk (trimCh s.data)

/-- Lexicographic `≤` on code points, the order `localeCompare` induces on
the ASCII datetime strings of the manifest. -/
def leCh : List Char → List Char → Bool
  | [], _ => true
  | _ :: _, [] => false
  | a :: as, b :: bs => if a < b then true else if b < a then false else leCh as bs

/-- Split a character list at every occurrence of `sep`
(JS `String.prototype.split(sep)`; splitting the empty string yields `[""]`). -/
def splitOnChar (sep : Char) : List Char → List (List Char)
  | [] => [[]]
  | c :: rest =>
    let r := splitOnChar sep rest
    if c = sep then [] :: r
    else
      match r with
      | [] => [[c]]
      | h :: t => (c :: h) :: t

/-- Helper for `wordsCh`: accumulates the current word (reversed). -/
def wordsAux : List Char → List Char → List (List Char)
  | [], acc => if acc.length = 0 then [] else [acc.reverse]
  | c :: rest, acc =>
    if Char.isWhitespace c then
      if acc.length = 0 then wordsAux rest [] else acc.reverse :: wordsAux rest []
    else wordsAux rest (c :: acc)

/-- Split on whitespace runs (JS `split(/\s+/)` applied to a trimmed string). -/
def wordsCh (cs : List Char) : List (List Char) := wordsAux cs []

/-- Numeric value of a digit list. -/
def digitsVal (ds : List Char) : Nat := ds.foldl (fun a c => a * 10 + (c.toNat - 48)) 0

/-- JS `parseInt(s, 10)`: skip leading whitespace, read the leading decimal
digits, `none` (JS `NaN`) when there are none. -/
def jsParseInt (cs : List Char) : Option Nat :=
  let t := cs.dropWhile Char.isWhitespace
  let ds := t.takeWhile Char.isDigit
  if ds.length = 0 then none else some (digitsVal ds)

/-! ## Data model: photo records (assets/js/gallery.js) -/

/-- One record of the photo manifest `photos.json`.  Every field is optional
in the JSON; the scripts guard each access with `|| ""` or a truthiness test. -/
structure Photo where
  slug : Option String
  title : Option String
  description : Option String
  datetime : Option String
  camera : Option String
  lens : Option String
  exif : Option String
  gallery : Option String
deriving Repr, DecidableEq, Inhabited

/-- The datetime key the sort comparator reads: `p.datetime || ""`. -/
def dtKey (p : Photo) : String := orEmpty p.datetime

/-! ## Gallery loader (assets/js/gallery.js) -/

def JSON_URL : String := "assets/img/gallery/generated/photos.json"

def BATCH_SIZE : Nat := 20

/-- Result of the JS property access `LABELS[k]`: an own property of the
`LABELS` object literal (one of the five label records), a value inherited
from `Object.prototype` through the prototype chain (a truthy object with no
`title`/`desc`), or `undefined`. -/
inductive LabelsEntry where
  | own (title desc : String)
  | inherited
  | undef
deriving Repr, DecidableEq

/-- Own property names of `Object.prototype`, which `LABELS[k]` reaches
through the prototype chain when `k` is none of the literal's own keys. -/
def protoProps : List String :=
  ["constructor", "hasOwnProperty", "isPrototypeOf", "propertyIsEnumerable",
   "toLocaleString", "toString", "valueOf", "__defineGetter__",
   "__defineSetter__", "__lookupGetter__", "__lookupSetter__", "__proto__"]

/-- The JS property lookup `LABELS[k]` on the `LABELS` object literal of
gallery.js: own keys first, then the prototype chain, else `undefined`. -/
def LABELS (k : String) : LabelsEntry :=
  if k = "wildlife" then LabelsEntry.own "Wildlife" "Moments from the wild."
  else if k = "landscapes" then LabelsEntry.own "Landscapes" "Light, weather, terrain."
  else if k = "panoramas" then LabelsEntry.own "Panoramas" "Wide stories in a single frame."
  else if k = "documentaries" then LabelsEntry.own "Documentaries" "Stills and BTS from films."
  else if k = "all" then LabelsEntry.own "Gallery" "Curated works."
  else if k ∈ protoProps then LabelsEntry.inherited
  else LabelsEntry.undef

/-- Model of `const meta = LABELS[gKey] || LABELS.all`: only `undefined` is
falsy — an object inherited from `Object.prototype` is truthy and suppresses
the fallback. -/
def metaFor (k : String) : LabelsEntry :=
  match LABELS k with
  | LabelsEntry.undef => LABELS "all"
  | e => e

/-- The heading/description pair `setHeading` displays:
`t.textContent = meta.title; d.textContent = meta.desc`.  On an inherited
object `meta.title`/`meta.desc` are `undefined`, which the `textContent`
setter renders as empty text. -/
def headingFor (gKey : String) : String × String :=
  match metaFor gKey with
  | LabelsEntry.own t d => (t, d)
  | _ => ("", "")

/-- Model of `getGalleryKey`: `(params.get("g") || "all").toLowerCase()`. -/
def getGalleryKey (gParam : Option String) : String :=
  jsToLower (jsOr (orEmpty gParam) "all")

/-- The filtering step of `init`:
`if (gKey !== "all") data = data.filter(p => (p.gallery || "").toLowerCase() === gKey)`. -/
def filterByKey (gKey : String) (data : List Photo) : List Photo :=
  if gKey ≠ "all" then
    data.filter (fun p => jsToLower (orEmpty p.gallery) == gKey)
  else data

/-- The comparator of `data.sort((a,b) => (b.datetime||"").localeCompare(a.datetime||""))`:
`a` may precede `b` iff `b`'s datetime is `≤` `a`'s (descending).  `Array.sort`
is stable (ES2019), modelled by a stable merge sort. -/
def dtDescLe (a b : Photo) : Bool := leCh (dtKey b).data (dtKey a).data

/-- The sorting step of `init` ("sort newest first"). -/
def sortPhotos (data : List Photo) : List Photo := data.mergeSort dtDescLe

/-! ## escapeHTML and card markup (assets/js/gallery.js) -/

/-- The apostrophe character. -/
def squote : Char := Char.ofNat 39

/-- The replacement map of
`s.replace(/[&<>"']/g, m => ({...})[m])`, per character. -/
def escapeChar (c : Char) : List Char :=
  if c = '&' then "&amp;".data
  else if c = '<' then "&lt;".data
  else if c = '>' then "&gt;".data
  else if c = '"' then "&quot;".data
  else if c = squote then "&#39;".data
  else [c]

/-- Model of `escapeHTML`: replace every occurrence of the five special characters by its entity. -/
def escapeHTML (s : String) : String :=
  String.mk (s.data.foldr (fun c acc => escapeChar c ++ acc) [])

/-- Spec-side checker: decodes the five entities back and rejects any raw
`< > " '` and any `&` that does not begin one of the five entities. -/
def unescapeCh : List Char → Option (List Char)
  | [] => some []
  | c :: r =>
    if c = '<' ∨ c = '>' ∨ c = '"' ∨ c = squote then none
    else if c = '&' then
      if r.take 4 = "amp;".data then (unescapeCh (r.drop 4)).map (fun t => '&' :: t)
      else if r.take 3 = "lt;".data then (unescapeCh (r.drop 3)).map (fun t => '<' :: t)
      else if r.take 3 = "gt;".data then (unescapeCh (r.drop 3)).map (fun t => '>' :: t)
      else if r.take 5 = "quot;".data then (unescapeCh (r.drop 5)).map (fun t => '"' :: t)
      else if r.take 4 = "#39;".data then (unescapeCh (r.drop 4)).map (fun t => squote :: t)
      else none
    else (unescapeCh r).map (fun t => c :: t)
termination_by l => l.length
decreasing_by
  all_goals simp [List.length_drop]
  all_goals omega

/-- The title expression of `createCard`: `photo.title || photo.slug || "Untitled"`. -/
def cardTitle (p : Photo) : String := jsOr (jsOr (orEmpty p.title) (orEmpty p.slug)) "Untitled"

/-- The `bits` array of `createCard`. -/
def metaBits (p : Photo) : List String :=
  (if truthy p.datetime then
    ["<time class=\"muted\">" ++ escapeHTML (orEmpty p.datetime) ++ "</time>"] else []) ++
  (if truthy p.camera then
    ["<span class=\"muted\">" ++ escapeHTML (orEmpty p.camera) ++ "</span>"] else []) ++
  (if truthy p.lens then
    ["<span class=\"muted\">" ++ escapeHTML (orEmpty p.lens) ++ "</span>"] else [])

/-- The `meta.innerHTML` template of `createCard` (template-literal whitespace
omitted). -/
def metaInnerHTML (p : Photo) : String :=
  let bits := metaBits p
  "<strong>" ++ escapeHTML (cardTitle p) ++ "</strong>" ++
  (if bits.length ≠ 0 then " · " ++ String.intercalate " · " bits else "") ++
  (if truthy p.exif then "<div class=\"muted\">" ++ escapeHTML (orEmpty p.exif) ++ "</div>"
   else "") ++
  (if jsTrim (orEmpty p.description) ≠ "" then
    "<div class=\"cc-desc\">" ++ escapeHTML (orEmpty p.description) ++ "</div>"
   else "")

/-- The escaped field interpolations occurring in `metaInnerHTML`. -/
def escapedFields (p : Photo) : List String :=
  [escapeHTML (cardTitle p), escapeHTML (orEmpty p.datetime),
   escapeHTML (orEmpty p.camera), escapeHTML (orEmpty p.lens),
   escapeHTML (orEmpty p.exif), escapeHTML (orEmpty p.description)]

/-! ## Manifest fetch and init (assets/js/gallery.js) -/

/-- The part of a `fetch` response that `fetchData` inspects. -/
structure FetchResponse where
  ok : Bool
  status : Nat
  body : List Photo
deriving Repr, DecidableEq

/-- Model of `fetchData`: `if (!res.ok) throw new Error(...); return res.json()`. -/
def fetchData (res : FetchResponse) : Except String (List Photo) :=
  if !res.ok then Except.error ("HTTP " ++ toString res.status ++ " for " ++ JSON_URL)
  else Except.ok res.body

/-- The page state `init` mutates: the grid container's children and the
heading/description pair. -/
structure PageState where
  container : List Photo
  heading : String × String
deriving Repr, DecidableEq

/-- Model of `init` up to its first `appendBatch`: set the heading, fetch, filter,
sort, render the first batch.  A fetch error propagates uncaught to the
`DOMContentLoaded` caller (the `Except.error` component). -/
def runInit (gParam : Option String) (res : FetchResponse) (page : PageState) :
    PageState × Except String Unit :=
  let gKey := getGalleryKey gParam
  let page1 : PageState := { page with heading := headingFor gKey }
  match fetchData res with
  | Except.error e => (page1, Except.error e)
  | Except.ok body =>
    let data := sortPhotos (filterByKey gKey body)
    ({ page1 with container := page1.container ++ data.take BATCH_SIZE }, Except.ok ())

/-! ## Batch rendering and the intersection observer (assets/js/gallery.js) -/

/-- The closure state of `init`'s pagination: the module-scoped index `idx`
and whether the observer is still connected (sentinel still present). -/
structure GalleryState where
  idx : Nat
  observing : Bool
deriving Repr, DecidableEq

/-- The value of `idx` after one `appendBatch` call:
`const end = Math.min(idx + BATCH_SIZE, data.length)`. -/
def appendBatchIdx (n idx : Nat) : Nat := min (idx + BATCH_SIZE) n

/-- Number of cards one `appendBatch` call creates. -/
def batchCount (n idx : Nat) : Nat := appendBatchIdx n idx - idx

/-- State after `appendBatch(); io.observe(sentinel)` in `init`,
for a filtered list of length `n`. -/
def initGalleryState (n : Nat) : GalleryState := ⟨appendBatchIdx n 0, true⟩

/-- One intersecting entry of the `IntersectionObserver` callback:
`if (idx < data.length) appendBatch(); if (idx >= data.length) { io.disconnect(); sentinel.remove(); }`.
A disconnected observer no longer fires. -/
def onIntersect (n : Nat) (s : GalleryState) : GalleryState :=
  if s.observing then
    let idx1 := if s.idx < n then appendBatchIdx n s.idx else s.idx
    if idx1 ≥ n then ⟨idx1, false⟩ else ⟨idx1, true⟩
  else s

/-- State after `k` intersection triggers. -/
def galleryAfter (n k : Nat) : GalleryState := Nat.iterate (onIntersect n) k (initGalleryState n)

/-- The observer is disconnected (and the sentinel removed) during trigger `t`. -/
def disconnectAt (n t : Nat) : Prop :=
  0 < t ∧ (galleryAfter n (t - 1)).observing = true ∧ (galleryAfter n t).observing = false

/-! ## Lightbox (assets/js/documentaries.js, second IIFE) -/

/-- A collected `img.cc-thumb` node together with the card metadata the
lightbox reads through `closest('.cc-card')`. -/
structure Img where
  src : String
  currentSrc : String
  srcset : Option String
  alt : Option String
  strongText : Option String
  mutedText : Option String
deriving Repr, DecidableEq, Inhabited

/-- What the `largestSrc` loop body extracts from one comma part:
`const [url, wstr] = part.trim().split(/\s+/); const w = parseInt(wstr,10) || 0`. -/
def parsePart (part : List Char) : String × Nat :=
  let fields := wordsCh (trimCh part)
  (String.mk (fields.getD 0 []), (jsParseInt (fields.getD 1 [])).getD 0)

/-- One step of the `largestSrc` scan: `if (w > bestW) { bestW = w; bestURL = url }`. -/
def bestStep (best c : String × Nat) : String × Nat := if best.2 < c.2 then c else best

/-- The candidate scan of `largestSrc`: start from `(img.src, 0)`, keep the
first candidate of strictly largest width. -/
def srcsetBest (ss : String) (initURL : String) : String × Nat :=
  ((splitOnChar ',' ss.data).map parsePart).foldl bestStep (initURL, 0)

/-- Model of `largestSrc`: parse `srcset` and return the largest candidate URL,
falling back to `img.currentSrc || img.src` when there is no srcset
(`if(!ss)`: a missing or empty attribute). -/
def largestSrc (img : Img) : String :=
  let ss := orEmpty img.srcset
  if ss = "" then jsOr img.currentSrc img.src
  else (srcsetBest ss img.src).1

/-- Model of `captionFor`: prefer the trimmed `<strong>` text, appending the first
trimmed `.muted` fragment when present; fall back to the `alt` attribute. -/
def captionFor (img : Img) : String :=
  let strong := jsTrim (orEmpty img.strongText)
  let extra := jsTrim (orEmpty img.mutedText)
  if strong ≠ "" then (if extra ≠ "" then strong ++ " · " ++ extra else strong)
  else orEmpty img.alt

/-- The lightbox module state: collected nodes, cursor, autoplay bookkeeping
and the overlay's displayed data.  `activeTimers` records the interval
timers currently scheduled (`setInterval` handles not yet cleared),
`nextTimerId` the next fresh handle. -/
structure Lgx where
  nodes : List Img
  idx : Int
  playing : Bool
  timer : Option Nat
  nextTimerId : Nat
  activeTimers : List Nat
  overlaySrc : String
  overlayAlt : String
  caption : String
  showing : Bool
deriving Repr, DecidableEq

/-- Model of `show(i)`: `if(!nodes.length) return; idx = (i + nodes.length) % nodes.length; ...`
(JS `%` is the truncating remainder, `Int.tmod`). -/
def showImg (i : Int) (s : Lgx) : Lgx :=
  if s.nodes.length = 0 then s
  else
    let n : Int := s.nodes.length
    let j := Int.tmod (i + n) n
    let img := s.nodes.getD j.toNat default
    { s with idx := j, overlaySrc := largestSrc img, overlayAlt := orEmpty img.alt,
             caption := captionFor img }

/-- Model of `next()`: `show(idx+1)`. -/
def nextImg (s : Lgx) : Lgx := showImg (s.idx + 1) s

/-- Model of `prev()`: `show(idx-1)`. -/
def prevImg (s : Lgx) : Lgx := showImg (s.idx - 1) s

/-- Model of `open(i)`: `show(i)` then add the `show` class. -/
def openLgx (i : Int) (s : Lgx) : Lgx :=
  let s1 := showImg i s
  { s1 with showing := true }

/-- Model of `play()`: no-op while already playing or with no nodes; otherwise set the
flag and schedule a fresh interval timer. -/
def playLgx (s : Lgx) : Lgx :=
  if s.playing || s.nodes.length == 0 then s
  else
    { s with playing := true, timer := some s.nextTimerId,
             activeTimers := s.activeTimers ++ [s.nextTimerId],
             nextTimerId := s.nextTimerId + 1 }

/-- Model of `stop()`: clear the flag, cancel and discard the scheduled timer if any. -/
def stopLgx (s : Lgx) : Lgx :=
  match s.timer with
  | some t => { s with playing := false, activeTimers := s.activeTimers.erase t, timer := none }
  | none => { s with playing := false }

/-- Model of `close()`: remove the `show` class, then `stop()`. -/
def closeLgx (s : Lgx) : Lgx := stopLgx { s with showing := false }

/-- Model of `togglePlay()`. -/
def toggleLgx (s : Lgx) : Lgx := if s.playing then stopLgx s else playLgx s

/-- One firing of the autoplay interval: `setInterval(next, DURATION)`. -/
def tickLgx (s : Lgx) : Lgx := nextImg s

/-- The UI events that drive the lightbox.  `opn i` is a grid click opening
thumbnail `i` (`open(i >= 0 ? i : 0)`, so the argument is a `Nat`);
`collect` is the MutationObserver re-collecting the node list. -/
inductive LgxAction where
  | opn (i : Nat)
  | cls
  | nxt
  | prv
  | ply
  | stp
  | tgl
  | tick
  | collect (imgs : List Img)

/-- Dispatch one event. -/
def stepLgx (s : Lgx) (a : LgxAction) : Lgx :=
  match a with
  | LgxAction.opn i => openLgx i s
  | LgxAction.cls => closeLgx s
  | LgxAction.nxt => nextImg s
  | LgxAction.prv => prevImg s
  | LgxAction.ply => playLgx s
  | LgxAction.stp => stopLgx s
  | LgxAction.tgl => toggleLgx s
  | LgxAction.tick => tickLgx s
  | LgxAction.collect imgs => { s with nodes := imgs }

/-- Module initialisation: `collect()` on the initial grid, cursor `0`,
not playing, no timer. -/
def initLgx (imgs : List Img) : Lgx :=
  { nodes := imgs, idx := 0, playing := false, timer := none, nextTimerId := 0,
    activeTimers := [], overlaySrc := "", overlayAlt := "", caption := "",
    showing := false }

/-- Run an event sequence from initialisation: the reachable states. -/
def runLgx (imgs : List Img) (as : List LgxAction) : Lgx :=
  as.foldl stepLgx (initLgx imgs)

/-- The cursor value `next()` computes when `nodes.length = n`. -/
def nextCursor (n : Nat) (i : Int) : Int := Int.tmod (i + 1 + n) n

/-- The cursor value `prev()` computes when `nodes.length = n`. -/
def prevCursor (n : Nat) (i : Int) : Int := Int.tmod (i - 1 + n) n

/-- The cursor stays a valid index of the (unchanged) node list. -/
def inRange (s : Lgx) : Prop := 0 ≤ s.idx ∧ s.idx < s.nodes.length

/-- Timer bookkeeping invariant of the lightbox: the playing flag tracks the
timer handle, the handle is the only scheduled timer, and the cursor is
non-negative. -/
def TimerInv (s : Lgx) : Prop :=
  (s.playing = true ↔ s.timer.isSome = true) ∧
  (∀ t, s.timer = some t → s.activeTimers = [t]) ∧
  (s.timer = none → s.activeTimers = []) ∧
  0 ≤ s.idx

/-! ## Sample data (used by the concrete witnesses) -/

def photoW : Photo :=
  { slug := some "gib", title := some "Bustard", description := none,
    datetime := some "2024-03-01T06:00", camera := some "R5", lens := none,
    exif := none, gallery := some "wildlife" }

def photoL : Photo :=
  { slug := some "dune", title := some "Dune", description := none,
    datetime := some "2024-05-01T06:00", camera := none, lens := none,
    exif := none, gallery := some "landscapes" }

def photoW2 : Photo :=
  { slug := some "fox", title := some "Desert Fox", description := none,
    datetime := some "2024-04-01T06:00", camera := none, lens := none,
    exif := none, gallery := some "Wildlife" }

def photoNoDt : Photo :=
  { slug := some "a", title := none, description := none, datetime := none,
    camera := none, lens := none, exif := none, gallery := none }

def photoNoDt2 : Photo :=
  { slug := some "b", title := none, description := none, datetime := none,
    camera := none, lens := none, exif := none, gallery := none }

def imgW : Img :=
  { src := "gib-640.jpg", currentSrc := "",
    srcset := some "gib-640.jpg 640w, gib-1280.jpg 1280w",
    alt := some "Bustard", strongText := some "Bustard",
    mutedText := some "2024-03-01T06:00" }

/-! ## Lemmas about the lexicographic comparison -/

lemma leCh_refl : ∀ x : List Char, leCh x x = true := by
  intro x
  induction x with
  | nil => rfl
  | cons c cs ih => simp [leCh, ih]

lemma leCh_total : ∀ a b : List Char, leCh a b = true ∨ leCh b a = true := by
  intro a
  induction a with
  | nil => intro b; exact Or.inl rfl
  | cons x xs ih =>
    intro b
    cases b with
    | nil => exact Or.inr rfl
    | cons y ys =>
      rcases lt_trichotomy x y with h | h | h
      · left; simp [leCh, h]
      · subst h
        rcases ih ys with h2 | h2
        · left; simp [leCh, lt_irrefl, h2]
        · right; simp [leCh, lt_irrefl, h2]
      · right; simp [leCh, h]

lemma leCh_trans : ∀ a b c : List Char,
    leCh a b = true → leCh b c = true → leCh a c = true := by
  intro a
  induction a with
  | nil => intro b c _ _; rfl
  | cons x xs ih =>
    intro b c h1 h2
    cases b with
    | nil => simp [leCh] at h1
    | cons y ys =>
      cases c with
      | nil => simp [leCh] at h2
      | cons z zs =>
        simp only [leCh] at h1 h2 ⊢
        rcases lt_trichotomy x y with hxy | hxy | hxy
        · rcases lt_trichotomy y z with hyz | hyz | hyz
          · simp [lt_trans hxy hyz]
          · subst hyz; simp [hxy]
          · simp [hyz, not_lt_of_lt hyz] at h2
        · subst hxy
          rcases lt_trichotomy x z with hyz | hyz | hyz
          · simp [hyz]
          · subst hyz
            simp only [lt_irrefl, if_false] at h1 h2 ⊢
            exact ih ys zs h1 h2
          · simp [hyz, not_lt_of_lt hyz] at h2
        · simp [hxy, not_lt_of_lt hxy] at h1

lemma leCh_nil_right : ∀ x : List Char, leCh x [] = true → x = [] := by
  intro x h
  cases x with
  | nil => rfl
  | cons c cs => simp [leCh] at h

lemma dtDescLe_trans (a b c : Photo) (h1 : dtDescLe a b = true) (h2 : dtDescLe b c = true) :
    dtDescLe a c = true :=
  leCh_trans _ _ _ h2 h1

lemma dtDescLe_total (a b : Photo) : (dtDescLe a b || dtDescLe b a) = true := by
  rcases leCh_total (dtKey b).data (dtKey a).data with h | h <;>
    simp [dtDescLe, h]

lemma str_data_nil {s : String} (h : s.data = []) : s = "" := by
  cases s with
  | mk l => cases h; rfl

lemma filter_pairwise_dtDescLe (d : String) (data : List Photo) :
    (data.filter (fun p => dtKey p == d)).Pairwise (fun a b => dtDescLe a b = true) := by
  rw [List.pairwise_iff_forall_sublist]
  intro a b hsub
  have ha : a ∈ data.filter (fun p => dtKey p == d) := hsub.subset (by simp)
  have hb : b ∈ data.filter (fun p => dtKey p == d) := hsub.subset (by simp)
  rw [List.mem_filter] at ha hb
  have h1 : dtKey a = d := by simpa using ha.2
  have h2 : dtKey b = d := by simpa using hb.2
  simp [dtDescLe, h1, h2, leCh_refl]

lemma sortPhotos_filter_dt (data : List Photo) (d : String) :
    (sortPhotos data).filter (fun p => dtKey p == d) = data.filter (fun p => dtKey p == d) := by
  have hsub : (data.filter (fun p => dtKey p == d)).Sublist (sortPhotos data) :=
    List.sublist_mergeSort (fun a b c h1 h2 => dtDescLe_trans a b c h1 h2)
      dtDescLe_total (filter_pairwise_dtDescLe d data) (List.filter_sublist data)
  have hself : (data.filter (fun p => dtKey p == d)).filter (fun p => dtKey p == d)
      = data.filter (fun p => dtKey p == d) := by
    rw [List.filter_filter]
    simp
  have h2 : (data.filter (fun p => dtKey p == d)).Sublist
      ((sortPhotos data).filter (fun p => dtKey p == d)) := by
    have h3 := List.Sublist.filter (fun p => dtKey p == d) hsub
    rwa [hself] at h3
  have hperm : ((sortPhotos data).filter (fun p => dtKey p == d)).Perm
      (data.filter (fun p => dtKey p == d)) :=
    (List.mergeSort_perm data dtDescLe).filter _
  exact (h2.eq_of_length hperm.length_eq.symm).symm

lemma sortPhotos_pairwise (data : List Photo) :
    (sortPhotos data).Pairwise (fun a b => dtDescLe a b = true) :=
  List.sorted_mergeSort (fun a b c h1 h2 => dtDescLe_trans a b c h1 h2)
    dtDescLe_total data

/-- C1: for every manifest and category key `k` read from the URL, the
filtering step with `k ≠ "all"` keeps exactly the records whose lower-cased
gallery tag (missing tag read as `""`) equals `k` — a sublist of the manifest
whose members are characterised by that equation and whose length is the
count of matching records — while `k = "all"` keeps the list unchanged. -/
theorem gallery_filter_exact (k : String) (data : List Photo) :
    (k ≠ "all" →
      (filterByKey k data).Sublist data ∧
      (∀ p, p ∈ filterByKey k data ↔ p ∈ data ∧ jsToLower (orEmpty p.gallery) = k) ∧
      (filterByKey k data).length = data.countP (fun p => jsToLower (orEmpty p.gallery) == k)) ∧
    filterByKey "all" data = data := by
  constructor
  · intro hk
    refine ⟨?_, ?_, ?_⟩
    · rw [filterByKey, if_pos hk]
      exact List.filter_sublist data
    · intro p
      rw [filterByKey, if_pos hk, List.mem_filter]
      simp
    · rw [filterByKey, if_pos hk]
      exact (List.countP_eq_length_filter _ _).symm
  · rw [filterByKey]
    simp

theorem gallery_filter_exact_witness :
    ("wildlife" ≠ "all") ∧
    (filterByKey "wildlife" [photoW, photoL, photoW2]).length =
      List.countP (fun p => jsToLower (orEmpty p.gallery) == "wildlife") [photoW, photoL, photoW2] :=
  ⟨by decide, ((gallery_filter_exact "wildlife" [photoW, photoL, photoW2]).1 (by decide)).2.2⟩

/-- C2: the sorting step orders the filtered records descending by datetime
under lexicographic comparison (`dtDescLe`), is a permutation of its input,
is stable — records of any fixed datetime key keep their manifest order —
and places every record with a missing/empty datetime after every record
with a non-empty one. -/
theorem gallery_sort_spec (data : List Photo) :
    (sortPhotos data).Pairwise (fun a b => dtDescLe a b = true) ∧
    (sortPhotos data).Perm data ∧
    (∀ d : String,
      (sortPhotos data).filter (fun p => dtKey p == d) = data.filter (fun p => dtKey p == d)) ∧
    (∀ i j : Nat, i < j → j < (sortPhotos data).length →
      dtKey ((sortPhotos data).getD i default) = "" →
      dtKey ((sortPhotos data).getD j default) = "") := by
  refine ⟨sortPhotos_pairwise data, List.mergeSort_perm data dtDescLe,
    sortPhotos_filter_dt data, ?_⟩
  intro i j hij hj hi0
  have hlt : i < (sortPhotos data).length := lt_trans hij hj
  rw [List.getD_eq_getElem _ _ hlt] at hi0
  rw [List.getD_eq_getElem _ _ hj]
  have hp := sortPhotos_pairwise data
  rw [List.pairwise_iff_get] at hp
  have hle := hp ⟨i, hlt⟩ ⟨j, hj⟩ hij
  unfold dtDescLe at hle
  simp only [List.get_eq_getElem] at hle
  rw [hi0] at hle
  exact str_data_nil (leCh_nil_right _ hle)

theorem gallery_sort_spec_witness :
    (0 < 1 ∧ 1 < (sortPhotos [photoNoDt, photoNoDt2]).length ∧
      dtKey ((sortPhotos [photoNoDt, photoNoDt2]).getD 0 default) = "") ∧
    dtKey ((sortPhotos [photoNoDt, photoNoDt2]).getD 1 default) = "" := by
  have hlen : (sortPhotos [photoNoDt, photoNoDt2]).length = 2 := by
    simp [sortPhotos]
  have hall : ∀ x ∈ sortPhotos [photoNoDt, photoNoDt2], dtKey x = "" := by
    intro x hx
    rw [sortPhotos, List.mem_mergeSort] at hx
    simp only [List.mem_cons, List.not_mem_nil, or_false] at hx
    rcases hx with h | h
    · rw [h]; rfl
    · rw [h]; rfl
  have h0 : dtKey ((sortPhotos [photoNoDt, photoNoDt2]).getD 0 default) = "" := by
    rw [List.getD_eq_getElem _ _ (by omega)]
    exact hall _ (List.getElem_mem _)
  exact ⟨⟨by decide, by omega, h0⟩,
    (gallery_sort_spec [photoNoDt, photoNoDt2]).2.2.2 0 1 (by decide) (by omega) h0⟩

/-- C5: on a non-success HTTP response, `fetchData` raises an error that
`init` propagates uncaught (the error component of `runInit`), `init`
renders no card, and the grid container is left exactly as it was. -/
theorem fetch_failure_uncaught (gParam : Option String) (res : FetchResponse)
    (page : PageState) (h : res.ok = false) :
    (runInit gParam res page).2 =
      Except.error ("HTTP " ++ toString res.status ++ " for " ++ JSON_URL) ∧
    (runInit gParam res page).1.container = page.container := by
  constructor <;> simp [runInit, fetchData, h]

theorem fetch_failure_uncaught_witness :
    ({ ok := false, status := 404, body := [] } : FetchResponse).ok = false ∧
    (runInit (some "wildlife") { ok := false, status := 404, body := [] }
        { container := [], heading := ("", "") }).1.container = [] :=
  ⟨rfl, (fetch_failure_uncaught (some "wildlife") { ok := false, status := 404, body := [] }
    { container := [], heading := ("", "") } rfl).2⟩

/-- C6 counterexample: `"constructor"` is outside the five recognized label
keys (and survives `toLowerCase`, so `?g=constructor` reaches `setHeading`),
yet the heading is NOT set to the "all" labels: `LABELS["constructor"]` hits
the truthy `Object.prototype.constructor` through the prototype chain, the
`|| LABELS.all` fallback does not fire, and the displayed heading is empty
text instead. -/
theorem unknown_key_fallback_counterexample :
    ("constructor" ∉ ["wildlife", "landscapes", "panoramas", "documentaries", "all"]) ∧
    headingFor "constructor" ≠ headingFor "all" ∧
    headingFor "constructor" = ("", "") :=
  ⟨by decide, by decide, by decide⟩

/-- C6 (amended): an unrecognized category key that is not an
`Object.prototype` property name falls back to the "all" heading labels;
an unrecognized key that IS such a property name (reachably, `constructor`
or `__proto__`) instead yields an empty heading, because the inherited
object is truthy and has no `title`/`desc`.  In both cases filtering still
compares tags against the key exactly: a manifest with no record tagged `k`
yields an empty filtered (hence rendered) list, while `"all"` keeps every
record. -/
theorem unknown_key_fallback (k : String) (data : List Photo)
    (hk : k ∉ ["wildlife", "landscapes", "panoramas", "documentaries", "all"]) :
    (k ∉ protoProps → headingFor k = headingFor "all") ∧
    (k ∈ protoProps → headingFor k = ("", "")) ∧
    ((∀ p ∈ data, jsToLower (orEmpty p.gallery) ≠ k) →
      filterByKey k data = [] ∧ sortPhotos (filterByKey k data) = []) ∧
    filterByKey "all" data = data := by
  simp only [List.mem_cons, List.not_mem_nil, or_false, not_or] at hk
  obtain ⟨h1, h2, h3, h4, h5⟩ := hk
  refine ⟨?_, ?_, ?_, ?_⟩
  · intro hproto
    rw [headingFor, headingFor, metaFor, metaFor, LABELS, LABELS]
    simp [h1, h2, h3, h4, h5, hproto]
  · intro hproto
    rw [headingFor, metaFor, LABELS]
    simp [h1, h2, h3, h4, h5, hproto]
  · intro hnone
    have hfil : filterByKey k data = [] := by
      rw [filterByKey, if_pos h5]
      rw [List.filter_eq_nil_iff]
      intro p hp
      simpa using hnone p hp
    exact ⟨hfil, by rw [hfil, sortPhotos, List.mergeSort_nil]⟩
  · rw [filterByKey]
    simp

theorem unknown_key_fallback_witness :
    ("street" ∉ ["wildlife", "landscapes", "panoramas", "documentaries", "all"] ∧
      "street" ∉ protoProps) ∧
    headingFor "street" = headingFor "all" ∧
    filterByKey "street" [photoW, photoL, photoW2] = [] := by
  have h := unknown_key_fallback "street" [photoW, photoL, photoW2] (by decide)
  exact ⟨⟨by decide, by decide⟩, h.1 (by decide), (h.2.2.1 (by decide)).1⟩

lemma galleryAfter_succ (n k : Nat) :
    galleryAfter n (k + 1) = onIntersect n (galleryAfter n k) := by
  rw [galleryAfter, galleryAfter]
  exact Function.iterate_succ_apply' (onIntersect n) k (initGalleryState n)

lemma galleryAfter_closed (n k : Nat) :
    (galleryAfter n k).idx = min (BATCH_SIZE * (k + 1)) n ∧
    ((galleryAfter n k).observing = true ↔ (k = 0 ∨ BATCH_SIZE * (k + 1) < n)) := by
  induction k with
  | zero =>
    constructor
    · show (initGalleryState n).idx = _
      rw [initGalleryState, appendBatchIdx, BATCH_SIZE]
    · simp [galleryAfter, initGalleryState]
  | succ k ih =>
    obtain ⟨h1, h2⟩ := ih
    rw [galleryAfter_succ, onIntersect]
    cases hobs : (galleryAfter n k).observing with
    | false =>
      have hk : ¬(k = 0 ∨ BATCH_SIZE * (k + 1) < n) := by
        rw [← h2, hobs]; simp
      rw [BATCH_SIZE] at h1 hk ⊢
      simp only [Bool.false_eq_true, if_false]
      constructor
      · omega
      · rw [hobs]
        simp only [Bool.false_eq_true, false_iff]
        omega
    | true =>
      have hk : k = 0 ∨ BATCH_SIZE * (k + 1) < n := h2.mp hobs
      rw [BATCH_SIZE] at h1 hk ⊢
      simp only [if_true]
      rw [appendBatchIdx, BATCH_SIZE]
      by_cases hlt : (galleryAfter n k).idx < n
      · simp only [if_pos hlt]
        by_cases hge : min ((galleryAfter n k).idx + 20) n ≥ n
        · simp only [if_pos hge]
          constructor
          · omega
          · simp only [Bool.false_eq_true, false_iff]
            omega
        · simp only [if_neg hge]
          constructor
          · omega
          · simp only [true_iff]
            omega
      · simp only [if_neg hlt]
        by_cases hge : (galleryAfter n k).idx ≥ n
        · simp only [if_pos hge]
          constructor
          · omega
          · simp only [Bool.false_eq_true, false_iff]
            omega
        · omega

lemma disconnectAt_arith (n t : Nat) :
    disconnectAt n t ↔
      (0 < t ∧ (t = 1 ∨ BATCH_SIZE * t < n) ∧ ¬(BATCH_SIZE * (t + 1) < n)) := by
  rw [disconnectAt]
  obtain ⟨-, hprev⟩ := galleryAfter_closed n (t - 1)
  obtain ⟨-, hcur⟩ := galleryAfter_closed n t
  constructor
  · rintro ⟨ht, hobs1, hobs0⟩
    have ha := hprev.mp hobs1
    have hb : ¬(t = 0 ∨ BATCH_SIZE * (t + 1) < n) := by
      rw [← hcur, hobs0]; simp
    rw [BATCH_SIZE] at ha hb ⊢
    omega
  · rintro ⟨ht, ha, hb⟩
    refine ⟨ht, ?_, ?_⟩
    · rw [hprev, BATCH_SIZE] at *
      omega
    · rw [BATCH_SIZE] at ha hb
      cases hcc : (galleryAfter n t).observing with
      | false => rfl
      | true =>
        have := hcur.mp hcc
        rw [BATCH_SIZE] at this
        omega

/-- C3: each `appendBatch` call renders at most `BATCH_SIZE` cards; over any
sequence of intersection triggers the rendered count is non-decreasing,
never exceeds the filtered list's length `n`, reaches exactly `n`, and the
observer is disconnected (with the sentinel removed) exactly once — at the
first trigger after which the rendered count equals `n`. -/
theorem gallery_batching_spec (n : Nat) :
    (∀ idx, batchCount n idx ≤ BATCH_SIZE) ∧
    (∀ k, (galleryAfter n k).idx ≤ (galleryAfter n (k + 1)).idx) ∧
    (∀ k, (galleryAfter n k).idx ≤ n) ∧
    (galleryAfter n (n / BATCH_SIZE)).idx = n ∧
    (∃! t, disconnectAt n t) ∧
    (∀ t, disconnectAt n t ↔
      (0 < t ∧ (galleryAfter n t).idx = n ∧
        ∀ j, 0 < j → j < t → (galleryAfter n j).idx ≠ n)) := by
  refine ⟨?_, ?_, ?_, ?_, ?_, ?_⟩
  · intro idx
    rw [batchCount, appendBatchIdx, BATCH_SIZE]
    omega
  · intro k
    obtain ⟨h1, -⟩ := galleryAfter_closed n k
    obtain ⟨h2, -⟩ := galleryAfter_closed n (k + 1)
    rw [h1, h2, BATCH_SIZE]
    omega
  · intro k
    obtain ⟨h1, -⟩ := galleryAfter_closed n k
    omega
  · obtain ⟨h1, -⟩ := galleryAfter_closed n (n / BATCH_SIZE)
    rw [h1, BATCH_SIZE]
    omega
  · have harith : ∀ t, disconnectAt n t ↔
        (0 < t ∧ (t = 1 ∨ 20 * t < n) ∧ ¬(20 * (t + 1) < n)) := by
      intro t
      rw [disconnectAt_arith, BATCH_SIZE]
    refine ⟨max 1 ((n - 1) / 20), ?_, ?_⟩
    · show disconnectAt n (max 1 ((n - 1) / 20))
      rw [harith]
      omega
    · intro y hy
      rw [harith] at hy
      omega
  · intro t
    rw [disconnectAt_arith]
    obtain ⟨h1, -⟩ := galleryAfter_closed n t
    constructor
    · rintro ⟨ht, ha, hb⟩
      refine ⟨ht, by rw [h1, BATCH_SIZE] at *; omega, ?_⟩
      intro j hj0 hjt
      obtain ⟨hj, -⟩ := galleryAfter_closed n j
      rw [hj, BATCH_SIZE] at *
      omega
    · rintro ⟨ht, ha, hb⟩
      rw [h1, BATCH_SIZE] at ha
      refine ⟨ht, ?_, by rw [BATCH_SIZE]; omega⟩
      rcases Nat.eq_or_lt_of_le ht with h | h
      · left; omega
      · right
        have hb1 := hb (t - 1) (by omega) (by omega)
        obtain ⟨hj, -⟩ := galleryAfter_closed n (t - 1)
        rw [hj, BATCH_SIZE] at hb1
        rw [BATCH_SIZE]
        omega

theorem gallery_batching_spec_witness :
    disconnectAt 45 2 ∧ (galleryAfter 45 2).idx = 45 ∧
    (galleryAfter 45 1).idx ≠ 45 := by
  have h := (gallery_batching_spec 45).2.2.2.2.2 2
  have hd : disconnectAt 45 2 := by
    rw [h]
    refine ⟨by decide, by decide, ?_⟩
    intro j hj0 hj2
    have : j = 1 := by omega
    rw [this]
    decide
  exact ⟨hd, by decide, by decide⟩

lemma tmod_nn (a : Int) (n : Nat) (h : 0 ≤ a) : Int.tmod a n = a % n :=
  Int.tmod_eq_emod h (Int.natCast_nonneg n)

lemma emod_range (a : Int) (n : Nat) (hn : 0 < n) : 0 ≤ a % (n : Int) ∧ a % (n : Int) < n :=
  ⟨Int.emod_nonneg a (by exact_mod_cast hn.ne'), Int.emod_lt_of_pos a (by exact_mod_cast hn)⟩

lemma nextCursor_emod (n : Nat) (i : Int) (hn : 0 < n) (h0 : 0 ≤ i) :
    nextCursor n i = (i + 1) % n := by
  rw [nextCursor, tmod_nn _ _ (by omega), Int.add_emod_self]

lemma prevCursor_emod (n : Nat) (i : Int) (hn : 0 < n) (h0 : 0 ≤ i) :
    prevCursor n i = (i - 1 + n) % n := by
  have hpos : (0 : Int) ≤ i - 1 + n := by
    have : (1 : Int) ≤ n := by exact_mod_cast hn
    omega
  rw [prevCursor, tmod_nn _ _ hpos]

lemma nextCursor_iterate (n : Nat) (hn : 0 < n) (i : Int) (h0 : 0 ≤ i) (h1 : i < n) :
    ∀ k : Nat, Nat.iterate (nextCursor n) k i = (i + k) % n := by
  intro k
  induction k with
  | zero =>
    simp only [Function.iterate_zero_apply, Nat.cast_zero, add_zero]
    exact (Int.emod_eq_of_lt h0 h1).symm
  | succ k ih =>
    rw [Function.iterate_succ_apply', ih]
    have hr := emod_range (i + k) n hn
    rw [nextCursor_emod n _ hn hr.1, Int.emod_add_emod]
    push_cast
    ring_nf

/-- C4: with `n` collected thumbnails and cursor `i ∈ [0, n)`, `next()` moves
the cursor to `(i+1) mod n` (so `next` from `n-1` gives `0`), `prev()` to
`(i-1+n) mod n` (so `prev` from `0` gives `n-1`), these are exactly the
cursor values `nextImg`/`prevImg` compute on the lightbox state, and `k`
successive `next()` presses from `i` land on `(i+k) mod n`. -/
theorem lightbox_cursor_cyclic (n : Nat) (i : Int) (hn : 0 < n) (h0 : 0 ≤ i) (h1 : i < n) :
    nextCursor n i = (i + 1) % n ∧
    prevCursor n i = (i - 1 + n) % n ∧
    nextCursor n ((n : Int) - 1) = 0 ∧
    prevCursor n 0 = (n : Int) - 1 ∧
    (∀ s : Lgx, s.nodes.length = n → s.idx = i →
      (nextImg s).idx = nextCursor n i ∧ (prevImg s).idx = prevCursor n i) ∧
    (∀ k : Nat, Nat.iterate (nextCursor n) k i = (i + k) % n) := by
  have hone : (1 : Int) ≤ n := by exact_mod_cast hn
  refine ⟨nextCursor_emod n i hn h0, prevCursor_emod n i hn h0, ?_, ?_, ?_, ?_⟩
  · rw [nextCursor, tmod_nn _ _ (by omega)]
    have he : (n : Int) - 1 + 1 + n = n + n := by ring
    rw [he, Int.add_emod_self, Int.emod_self]
  · rw [prevCursor, tmod_nn _ _ (by omega)]
    have he : (0 : Int) - 1 + n = n - 1 := by ring
    rw [he]
    exact Int.emod_eq_of_lt (by omega) (by omega)
  · intro s hlen hidx
    constructor
    · rw [nextImg, showImg, hlen, if_neg hn.ne', hidx]
      rfl
    · rw [prevImg, showImg, hlen, if_neg hn.ne', hidx]
      rfl
  · exact nextCursor_iterate n hn i h0 h1

theorem lightbox_cursor_cyclic_witness :
    (0 < 5 ∧ (0 : Int) ≤ 2 ∧ (2 : Int) < 5) ∧
    Nat.iterate (nextCursor 5) 3 2 = ((2 : Int) + (3 : Nat)) % (5 : Nat) :=
  ⟨⟨by decide, by decide, by decide⟩,
   (lightbox_cursor_cyclic 5 2 (by decide) (by decide) (by decide)).2.2.2.2.2 3⟩

lemma foldBest_spec (ps : List (String × Nat)) : ∀ b : String × Nat,
    (ps.foldl bestStep b = b ∨ ps.foldl bestStep b ∈ ps) ∧
    b.2 ≤ (ps.foldl bestStep b).2 ∧
    (∀ c ∈ ps, c.2 ≤ (ps.foldl bestStep b).2) ∧
    ((∃ c ∈ ps, b.2 < c.2) → ps.foldl bestStep b ∈ ps) := by
  induction ps with
  | nil =>
    intro b
    simp
  | cons p rest ih =>
    intro b
    simp only [List.foldl_cons]
    obtain ⟨ih1, ih2, ih3, ih4⟩ := ih (bestStep b p)
    have hstep : bestStep b p = p ∨ (bestStep b p = b ∧ p.2 ≤ b.2) := by
      rw [bestStep]
      by_cases hc : b.2 < p.2
      · rw [if_pos hc]; exact Or.inl rfl
      · rw [if_neg hc]; exact Or.inr ⟨rfl, by omega⟩
    have hb2 : b.2 ≤ (bestStep b p).2 ∧ p.2 ≤ (bestStep b p).2 := by
      rw [bestStep]
      by_cases hc : b.2 < p.2
      · rw [if_pos hc]; omega
      · rw [if_neg hc]; omega
    refine ⟨?_, le_trans hb2.1 ih2, ?_, ?_⟩
    · rcases ih1 with h | h
      · rw [h]
        rcases hstep with h2 | h2
        · right; rw [h2]; exact List.mem_cons_self p rest
        · left; exact h2.1
      · right; exact List.mem_cons_of_mem p h
    · intro c hc
      rcases List.mem_cons.mp hc with h | h
      · subst h; exact le_trans hb2.2 ih2
      · exact ih3 c h
    · rintro ⟨c, hcmem, hclt⟩
      rcases List.mem_cons.mp hcmem with h | h
      · rw [h] at hclt
        rcases ih1 with h2 | h2
        · rw [h2]
          rcases hstep with h3 | h3
          · rw [h3]; exact List.mem_cons_self p rest
          · exfalso; omega
        · exact List.mem_cons_of_mem p h2
      · by_cases hlt : (bestStep b p).2 < c.2
        · exact List.mem_cons_of_mem p (ih4 ⟨c, h, hlt⟩)
        · have hp : bestStep b p = p := by
            rcases hstep with h2 | h2
            · exact h2
            · exfalso; rw [h2.1] at hlt; omega
          rcases ih1 with h2 | h2
          · rw [h2, hp]; exact List.mem_cons_self p rest
          · exact List.mem_cons_of_mem p h2

/-- C7: opening a thumbnail in the lightbox uses the srcset candidate with
the numerically largest width descriptor; without a srcset it falls back to
the thumbnail's own source; the caption is the card's title text with the
first muted fragment appended when present, else the image's alt text; and
`open` wires exactly `largestSrc`/`captionFor` of the clicked node into the
overlay. -/
theorem lightbox_largest_src (img : Img) (cands : List (String × Nat)) :
    (orEmpty img.srcset ≠ "" →
      (splitOnChar ',' (orEmpty img.srcset).data).map parsePart = cands →
      cands ≠ [] → (∀ c ∈ cands, 0 < c.2) →
      ∃ c ∈ cands, largestSrc img = c.1 ∧ ∀ d ∈ cands, d.2 ≤ c.2) ∧
    (img.srcset = none → (img.currentSrc = "" ∨ img.currentSrc = img.src) →
      largestSrc img = img.src) ∧
    (jsTrim (orEmpty img.strongText) ≠ "" →
      captionFor img =
        (if jsTrim (orEmpty img.mutedText) ≠ ""
         then jsTrim (orEmpty img.strongText) ++ " · " ++ jsTrim (orEmpty img.mutedText)
         else jsTrim (orEmpty img.strongText))) ∧
    (jsTrim (orEmpty img.strongText) = "" → captionFor img = orEmpty img.alt) ∧
    (∀ s : Lgx, ∀ i : Nat, 0 < s.nodes.length → i < s.nodes.length →
      (openLgx i s).overlaySrc = largestSrc (s.nodes.getD i default) ∧
      (openLgx i s).caption = captionFor (s.nodes.getD i default)) := by
  refine ⟨?_, ?_, ?_, ?_, ?_⟩
  · intro hss hmap hne hpos
    rw [largestSrc]
    simp only [if_neg hss]
    rw [srcsetBest, hmap]
    obtain ⟨h1, h2, h3, h4⟩ := foldBest_spec cands (img.src, 0)
    obtain ⟨c0, hc0⟩ := List.exists_mem_of_ne_nil cands hne
    have hin : cands.foldl bestStep (img.src, 0) ∈ cands := h4 ⟨c0, hc0, hpos c0 hc0⟩
    exact ⟨_, hin, rfl, h3⟩
  · intro h1 h2
    rcases h2 with h | h <;> simp [largestSrc, h1, orEmpty, jsOr, h]
  · intro h
    rw [captionFor]
    simp only [if_pos h]
  · intro h
    rw [captionFor]
    simp [h]
  · intro s i hpos hi
    have hne : s.nodes.length ≠ 0 := by omega
    have hj : Int.tmod ((i : Int) + s.nodes.length) s.nodes.length = i := by
      rw [tmod_nn _ _ (by positivity), Int.add_emod_self]
      exact Int.emod_eq_of_lt (by positivity) (by exact_mod_cast hi)
    constructor <;>
      simp [openLgx, showImg, hne, hj]

theorem lightbox_largest_src_witness :
    (orEmpty imgW.srcset ≠ "" ∧
      (splitOnChar ',' (orEmpty imgW.srcset).data).map parsePart =
        [("gib-640.jpg", 640), ("gib-1280.jpg", 1280)]) ∧
    ∃ c ∈ [("gib-640.jpg", 640), ("gib-1280.jpg", 1280)],
      largestSrc imgW = c.1 ∧
      ∀ d ∈ [("gib-640.jpg", 640), ("gib-1280.jpg", 1280)], d.2 ≤ c.2 :=
  ⟨⟨by decide, by decide⟩,
   (lightbox_largest_src imgW [("gib-640.jpg", 640), ("gib-1280.jpg", 1280)]).1
     (by decide) (by decide) (by decide) (by decide)⟩

lemma showImg_inv (i : Int) (s : Lgx) (hinv : TimerInv s)
    (hge : s.nodes.length ≠ 0 → 0 ≤ i + s.nodes.length) : TimerInv (showImg i s) := by
  obtain ⟨h1, h2, h3, h4⟩ := hinv
  rw [showImg]
  by_cases h : s.nodes.length = 0
  · rw [if_pos h]
    exact ⟨h1, h2, h3, h4⟩
  · rw [if_neg h]
    exact ⟨h1, h2, h3, Int.tmod_nonneg _ (hge h)⟩

lemma playLgx_inv (s : Lgx) (h : TimerInv s) : TimerInv (playLgx s) := by
  obtain ⟨h1, h2, h3, h4⟩ := h
  rw [playLgx]
  by_cases hc : (s.playing || s.nodes.length == 0) = true
  · rw [if_pos hc]
    exact ⟨h1, h2, h3, h4⟩
  · rw [if_neg hc]
    simp only [Bool.or_eq_true, beq_iff_eq, not_or] at hc
    refine ⟨by simp, ?_, by simp, h4⟩
    intro t ht
    have htimer : s.timer = none := by
      rcases hh : s.timer with _ | t2
      · rfl
      · exfalso
        have := h1.mpr (by rw [hh]; rfl)
        exact hc.1 (by simp [this])
    have hact : s.activeTimers = [] := h3 htimer
    simp only at ht
    cases ht
    simp [hact]

lemma stopLgx_spec (s : Lgx) (h : TimerInv s) :
    TimerInv (stopLgx s) ∧ (stopLgx s).playing = false ∧ (stopLgx s).timer = none ∧
      (stopLgx s).activeTimers = [] := by
  obtain ⟨h1, h2, h3, h4⟩ := h
  rcases ht : s.timer with _ | t
  · have hact : s.activeTimers = [] := h3 ht
    simp only [stopLgx, ht]
    exact ⟨⟨by simp [ht], by simp [ht], fun _ => hact, h4⟩, trivial, trivial, hact⟩
  · have hact : s.activeTimers = [t] := h2 t ht
    simp only [stopLgx, ht]
    refine ⟨⟨by simp, by simp, fun _ => by simp [hact], h4⟩, trivial, trivial, by simp [hact]⟩

lemma closeLgx_spec (s : Lgx) (h : TimerInv s) :
    TimerInv (closeLgx s) ∧ (closeLgx s).playing = false ∧ (closeLgx s).timer = none ∧
      (closeLgx s).activeTimers = [] := by
  rw [closeLgx]
  exact stopLgx_spec { s with showing := false } ⟨h.1, h.2.1, h.2.2.1, h.2.2.2⟩

lemma stepLgx_inv (s : Lgx) (a : LgxAction) (h : TimerInv s) : TimerInv (stepLgx s a) := by
  have h4 := h.2.2.2
  cases a with
  | opn i =>
    have hs := showImg_inv i s h (fun _ => by positivity)
    exact ⟨hs.1, hs.2.1, hs.2.2.1, hs.2.2.2⟩
  | cls => exact (closeLgx_spec s h).1
  | nxt => exact showImg_inv (s.idx + 1) s h (fun hne => by omega)
  | prv => exact showImg_inv (s.idx - 1) s h (fun hne => by omega)
  | ply => exact playLgx_inv s h
  | stp => exact (stopLgx_spec s h).1
  | tgl =>
    rw [stepLgx, toggleLgx]
    by_cases hp : s.playing = true
    · rw [if_pos hp]
      exact (stopLgx_spec s h).1
    · rw [if_neg hp]
      exact playLgx_inv s h
  | tick => exact showImg_inv (s.idx + 1) s h (fun hne => by omega)
  | collect imgs => exact ⟨h.1, h.2.1, h.2.2.1, h4⟩

lemma foldl_stepLgx_inv (as : List LgxAction) :
    ∀ s : Lgx, TimerInv s → TimerInv (as.foldl stepLgx s) := by
  induction as with
  | nil => intro s h; exact h
  | cons a rest ih => intro s h; exact ih _ (stepLgx_inv s a h)

lemma runLgx_inv (imgs : List Img) (as : List LgxAction) : TimerInv (runLgx imgs as) := by
  rw [runLgx]
  refine foldl_stepLgx_inv as _ ⟨by simp [initLgx], ?_, fun _ => rfl, by simp [initLgx]⟩
  intro t ht
  simp [initLgx] at ht

/-- C8: in every reachable lightbox state at most one autoplay timer is
scheduled; `play` is a no-op while already playing; `stop` clears the flag,
the handle and every scheduled timer; and closing the overlay always leaves
the lightbox not playing with no timer scheduled. -/
theorem autoplay_single_timer (imgs : List Img) (as : List LgxAction) :
    (runLgx imgs as).activeTimers.length ≤ 1 ∧
    ((runLgx imgs as).playing = true → playLgx (runLgx imgs as) = runLgx imgs as) ∧
    ((stopLgx (runLgx imgs as)).playing = false ∧
      (stopLgx (runLgx imgs as)).timer = none ∧
      (stopLgx (runLgx imgs as)).activeTimers = []) ∧
    ((closeLgx (runLgx imgs as)).playing = false ∧
      (closeLgx (runLgx imgs as)).timer = none ∧
      (closeLgx (runLgx imgs as)).activeTimers = []) := by
  have hinv := runLgx_inv imgs as
  refine ⟨?_, ?_, (stopLgx_spec _ hinv).2, (closeLgx_spec _ hinv).2⟩
  · rcases ht : (runLgx imgs as).timer with _ | t
    · rw [hinv.2.2.1 ht]
      simp
    · rw [hinv.2.1 t ht]
      simp
  · intro hp
    rw [playLgx, if_pos (by rw [hp]; rfl)]

theorem autoplay_single_timer_witness :
    (runLgx [imgW] [LgxAction.opn 0, LgxAction.ply]).playing = true ∧
    playLgx (runLgx [imgW] [LgxAction.opn 0, LgxAction.ply]) =
      runLgx [imgW] [LgxAction.opn 0, LgxAction.ply] :=
  ⟨by decide, (autoplay_single_timer [imgW] [LgxAction.opn 0, LgxAction.ply]).2.1 (by decide)⟩

lemma showImg_inRange (i : Int) (s : Lgx) (hne : s.nodes ≠ [])
    (hge : 0 ≤ i + s.nodes.length) : inRange (showImg i s) := by
  have hlen : s.nodes.length ≠ 0 := by
    simpa using fun h => hne (List.length_eq_zero.mp h)
  rw [showImg, inRange]
  rw [if_neg hlen]
  refine ⟨Int.tmod_nonneg _ hge, ?_⟩
  show Int.tmod (i + s.nodes.length) s.nodes.length < s.nodes.length
  rw [tmod_nn _ _ hge]
  exact (emod_range _ _ (Nat.pos_of_ne_zero hlen)).2

/-- C10: with an empty collected node list, `show` returns the state
untouched (no modulo is evaluated); with a non-empty list, the cursor is a
valid index after any `show` from a click, `next`, `prev`, or autoplay tick
in every reachable state. -/
theorem cursor_in_range (imgs : List Img) (as : List LgxAction) :
    (∀ s : Lgx, ∀ i : Int, s.nodes = [] → showImg i s = s) ∧
    (∀ i : Int, 0 ≤ i → (runLgx imgs as).nodes ≠ [] →
      inRange (showImg i (runLgx imgs as))) ∧
    ((runLgx imgs as).nodes ≠ [] →
      inRange (nextImg (runLgx imgs as)) ∧ inRange (prevImg (runLgx imgs as)) ∧
      inRange (tickLgx (runLgx imgs as))) := by
  have h4 := (runLgx_inv imgs as).2.2.2
  refine ⟨?_, ?_, ?_⟩
  · intro s i hnil
    rw [showImg, hnil]
    simp
  · intro i hi hne
    exact showImg_inRange i _ hne (by positivity)
  · intro hne
    have hlen : (runLgx imgs as).nodes.length ≠ 0 := by
      simpa using fun h => hne (List.length_eq_zero.mp h)
    exact ⟨showImg_inRange _ _ hne (by omega),
      showImg_inRange _ _ hne (by omega),
      showImg_inRange _ _ hne (by omega)⟩

theorem cursor_in_range_witness :
    ((0 : Int) ≤ 0 ∧ (runLgx [imgW] []).nodes ≠ []) ∧
    inRange (showImg 0 (runLgx [imgW] [])) :=
  ⟨⟨by decide, by decide⟩,
   (cursor_in_range [imgW] []).2.1 0 (by decide) (by decide)⟩

lemma escapeChar_no_specials (c : Char) :
    ∀ x ∈ escapeChar c, ¬(x = '<' ∨ x = '>' ∨ x = '"' ∨ x = squote) := by
  rw [escapeChar]
  by_cases h1 : c = '&'
  · rw [if_pos h1]; decide
  rw [if_neg h1]
  by_cases h2 : c = '<'
  · rw [if_pos h2]; decide
  rw [if_neg h2]
  by_cases h3 : c = '>'
  · rw [if_pos h3]; decide
  rw [if_neg h3]
  by_cases h4 : c = '"'
  · rw [if_pos h4]; decide
  rw [if_neg h4]
  by_cases h5 : c = squote
  · rw [if_pos h5]; decide
  rw [if_neg h5]
  intro x hx
  simp only [List.mem_singleton] at hx
  subst hx
  rintro (h | h | h | h)
  · exact h2 h
  · exact h3 h
  · exact h4 h
  · exact h5 h

lemma escapeHTML_no_specials (l : List Char) :
    ∀ x ∈ l.foldr (fun c acc => escapeChar c ++ acc) [],
      ¬(x = '<' ∨ x = '>' ∨ x = '"' ∨ x = squote) := by
  induction l with
  | nil => simp
  | cons c rest ih =>
    simp only [List.foldr_cons, List.mem_append]
    rintro x (hx | hx)
    · exact escapeChar_no_specials c x hx
    · exact ih x hx

lemma unescape_escapeList (l : List Char) :
    unescapeCh (l.foldr (fun c acc => escapeChar c ++ acc) []) = some l := by
  induction l with
  | nil => simp [unescapeCh]
  | cons c rest ih =>
    rw [List.foldr_cons]
    by_cases h1 : c = '&'
    · subst h1
      have he : escapeChar '&' = '&' :: 'a' :: 'm' :: 'p' :: [';'] := by decide
      rw [he]
      simp only [List.cons_append, List.nil_append]
      rw [unescapeCh]
      simp [squote, ih]
    by_cases h2 : c = '<'
    · subst h2
      have he : escapeChar '<' = '&' :: 'l' :: 't' :: [';'] := by decide
      rw [he]
      simp only [List.cons_append, List.nil_append]
      rw [unescapeCh]
      simp [squote, ih]
    by_cases h3 : c = '>'
    · subst h3
      have he : escapeChar '>' = '&' :: 'g' :: 't' :: [';'] := by decide
      rw [he]
      simp only [List.cons_append, List.nil_append]
      rw [unescapeCh]
      simp [squote, ih]
    by_cases h4 : c = '"'
    · subst h4
      have he : escapeChar '"' = '&' :: 'q' :: 'u' :: 'o' :: 't' :: [';'] := by decide
      rw [he]
      simp only [List.cons_append, List.nil_append]
      rw [unescapeCh]
      simp [squote, ih]
    by_cases h5 : c = squote
    · subst h5
      have he : escapeChar squote = '&' :: '#' :: '3' :: '9' :: [';'] := by decide
      rw [he]
      simp only [List.cons_append, List.nil_append]
      rw [unescapeCh]
      simp [squote, ih]
    have he : escapeChar c = [c] := by
      rw [escapeChar, if_neg h1, if_neg h2, if_neg h3, if_neg h4, if_neg h5]
    rw [he]
    simp only [List.singleton_append]
    rw [unescapeCh]
    simp [h1, h2, h3, h4, h5, ih]

lemma unescape_escape (s : String) : unescapeCh (escapeHTML s).data = some s.data :=
  unescape_escapeList s.data

/-- C9: `escapeHTML` replaces every occurrence of `& < > " '` by its entity:
its output contains no raw `< > " '` at all, and decoding the five entities
recovers the input exactly (so every `&` in the output begins an entity and
no information is lost); consequently each field interpolation of the card's
`meta.innerHTML` decodes back to the raw field — metadata text cannot inject
markup into the rendered card. -/
theorem escape_html_safe :
    (∀ s : String,
      (escapeHTML s).data.all
        (fun c => !(decide (c = '<' ∨ c = '>' ∨ c = '"' ∨ c = squote))) = true) ∧
    (∀ s : String, unescapeCh (escapeHTML s).data = some s.data) ∧
    (∀ p : Photo,
      (escapedFields p).map (fun f => unescapeCh f.data) =
        [some (cardTitle p).data, some (orEmpty p.datetime).data,
         some (orEmpty p.camera).data, some (orEmpty p.lens).data,
         some (orEmpty p.exif).data, some (orEmpty p.description).data]) := by
  refine ⟨?_, unescape_escape, ?_⟩
  · intro s
    rw [List.all_eq_true]
    intro c hc
    have := escapeHTML_no_specials s.data c hc
    simpa using this
  · intro p
    simp [escapedFields, unescape_escape]
